import Mathlib

namespace Contribmap

/-!
Verification of the contribmap utility (contribmap.go): shallow embedding of
the color-bucketing, normalization, colorizing and SVG-layout logic, with
theorems checking the natural-language specification against the code.

Machine integers of the Go source are modelled as `Int` (Go `int`), with Go's
truncating integer division written `Int.tdiv`.  Floating-point expressions of
the source that compute exact integer or rational values (`math.Ceil` of an
integer quotient, the percentage and interpolation formulas) are modelled in
exact arithmetic over `Int` and `ℚ`, as the specification itself states them.
Fallible operations (palette indexing that can panic, timestamp parsing) are
modelled with `Option`.
-/

/-! ## Shared constants and color schemes (contribmap.go lines 24-55) -/

/-- Number of nonzero color buckets for the map (`bucketCount = 5`). -/
def bucketCount : Int := 5

/-- Dark mode bucket colors, darkest to brightest (`darkBucketColors`). -/
def darkBucketColors : List String :=
  ["#0B3D0B", "#0F4F0F", "#129012", "#16B316", "#1AFF1A"]

/-- Light mode bucket colors (`lightBucketColors`). -/
def lightBucketColors : List String :=
  ["#216e39", "#30a14e", "#40c463", "#8fdc85", "#c6f7d0"]

/-- Color for days with zero contributions, dark mode (`zeroColorDark`). -/
def zeroColorDark : String := "#000000"

/-- Color for days with zero contributions, light mode (`zeroColorLight`). -/
def zeroColorLight : String := "#ebedf0"

/-- Bucket palette selected by the light/dark mode flag. -/
def bucketColors (lightMode : Bool) : List String :=
  if lightMode then lightBucketColors else darkBucketColors

/-- Zero-contribution color selected by the light/dark mode flag. -/
def zeroColor (lightMode : Bool) : String :=
  if lightMode then zeroColorLight else zeroColorDark

/-! ## Color bucketing (`getColor`, contribmap.go lines 157-177) -/

/-- Ceiling of the exact quotient `a / b` for `b > 0`; models
`math.Ceil(float64 a / float64 b)`, which is exact at the magnitudes the
program handles. -/
def ceilDiv (a b : Int) : Int := -((-a) / b)

/-- Bucket width computed by `getColor`:
`int(math.Ceil(float64(maxCount-1)/float64(bucketCount)))`, raised to at
least 1 by the following `if bucketWidth < 1` guard. -/
def bucketWidthOf (maxCount : Int) : Int :=
  if ceilDiv (maxCount - 1) bucketCount < 1 then 1
  else ceilDiv (maxCount - 1) bucketCount

/-- Bucket index computed by `getColor`: Go's truncating division
`(count - 1) / bucketWidth`, then the upper clamp
`if bucketIndex >= bucketCount { bucketIndex = bucketCount - 1 }`. -/
def bucketIndexOf (count maxCount : Int) : Int :=
  if Int.tdiv (count - 1) (bucketWidthOf maxCount) ≥ bucketCount then bucketCount - 1
  else Int.tdiv (count - 1) (bucketWidthOf maxCount)

/-- Model of `getColor`: hex color for a day's contribution count.  The
palette lookup is `Option`-valued: `none` models the runtime panic Go raises
when the array index is out of range (only possible below 0, since the code
clamps from above). -/
def getColor (count maxCount : Int) (lightMode : Bool) : Option String :=
  if count = 0 then some (zeroColor lightMode)
  else if 0 ≤ bucketIndexOf count maxCount then
    (bucketColors lightMode).get? (bucketIndexOf count maxCount).toNat
  else none

/-- Reference definition of the spec (section 4.1): zero color for
`count = 0`; otherwise the palette entry at
`floor((count-1)/bucketWidth)` clamped to `[0, 4]`, where
`bucketWidth = max(1, ceil((maxCount-1)/5))`. -/
def colorForSpec (count maxCount : Int) (lightMode : Bool) : String :=
  if count = 0 then zeroColor lightMode
  else (bucketColors lightMode).getD
    (min (max ((count - 1) / max 1 (ceilDiv (maxCount - 1) 5)) 0) 4).toNat ""

/-! ## Generic data structures (contribmap.go lines 119-148) -/

/-- Day record of the generic grid (`ContributionDay`): date string (empty for
padding cells), contribution count, and hex color. -/
structure ContributionDay where
  Date : String
  Count : Int
  Color : String
  deriving DecidableEq, Repr

/-- Week grid (`Weeks`): a slice of weeks, each week a slice of
`ContributionDay` values. -/
abbrev Weeks := List (List ContributionDay)

/-- Month label of the heatmap (`MonthLabel`): x coordinate and a three-letter
month abbreviation. -/
structure MonthLabel where
  X : Nat
  Label : String
  deriving DecidableEq, Repr

/-- Totals of the four contribution types (`CrossData`). -/
structure CrossData where
  Commits : Int
  PullRequests : Int
  Issues : Int
  CodeReviews : Int
  deriving DecidableEq, Repr

/-! ## Layout constants (contribmap.go lines 61-78) -/

/-- Cell side length of the heatmap (`cellSize`). -/
def cellSize : Nat := 12

/-- Margin between heatmap cells (`cellMargin`). -/
def cellMargin : Nat := 2

/-- Extra vertical space at the top of the heatmap (`topMargin`). -/
def topMargin : Nat := 20

/-- Width of the cross diagram canvas (`crossSVGWidth`). -/
def crossSVGWidth : Int := 300

/-- Height of the cross diagram canvas (`crossSVGHeight`). -/
def crossSVGHeight : Int := 300

/-- Horizontal center of the cross diagram (`crossCenterX`). -/
def crossCenterX : Int := crossSVGWidth / 2

/-- Vertical center of the cross diagram (`crossCenterY`). -/
def crossCenterY : Int := crossSVGHeight / 2

/-- Label anchor for Code Reviews at the top arm (`topY`). -/
def topY : Int := 50

/-- Label anchor for Pull Requests at the bottom arm (`bottomY`). -/
def bottomY : Int := 250

/-- Label anchor for Commits at the left arm (`leftX`). -/
def leftX : Int := 50

/-- Label anchor for Issues at the right arm (`rightX`). -/
def rightX : Int := 250

/-! ## Cross diagram arithmetic (`generateCrossSVG`, contribmap.go 460-530) -/

/-- Total of the four category counters (`total` in `generateCrossSVG`). -/
def crossTotal (cd : CrossData) : Int :=
  cd.Commits + cd.PullRequests + cd.Issues + cd.CodeReviews

/-- The four percentages (commits, pullRequests, issues, codeReviews) of the
cross diagram, in exact rational arithmetic; all four stay at their zero
initialization when the total is not positive, matching the `if total > 0`
guard of the source. -/
def crossPercentages (cd : CrossData) : ℚ × ℚ × ℚ × ℚ :=
  if 0 < crossTotal cd then
    ((cd.Commits : ℚ) / (crossTotal cd : ℚ) * 100,
      (cd.PullRequests : ℚ) / (crossTotal cd : ℚ) * 100,
      (cd.Issues : ℚ) / (crossTotal cd : ℚ) * 100,
      (cd.CodeReviews : ℚ) / (crossTotal cd : ℚ) * 100)
  else (0, 0, 0, 0)

/-- Weighted indicator point of the cross diagram in exact rational
arithmetic (the `x`, `y` computation of `generateCrossSVG`). -/
def crossPoint (cd : CrossData) : ℚ × ℚ :=
  (if 0 < cd.Commits + cd.Issues then
      (leftX : ℚ)
        + (cd.Issues : ℚ) / ((cd.Commits : ℚ) + (cd.Issues : ℚ))
          * ((rightX : ℚ) - (leftX : ℚ))
    else (crossCenterX : ℚ),
    if 0 < cd.CodeReviews + cd.PullRequests then
      (topY : ℚ)
        + (cd.PullRequests : ℚ) / ((cd.CodeReviews : ℚ) + (cd.PullRequests : ℚ))
          * ((bottomY : ℚ) - (topY : ℚ))
    else (crossCenterY : ℚ))

/-! ## Colorizing pass (`updateWeeksColors`, contribmap.go lines 354-368) -/

/-- First pass of `updateWeeksColors`: running maximum of the daily counts,
starting from 0 (`if day.Count > maxCount { maxCount = day.Count }`). -/
def maxCountOf (weeks : Weeks) : Int :=
  weeks.foldl
    (fun m week => week.foldl (fun m day => if day.Count > m then day.Count else m) m) 0

/-- Map over a list with an `Option`-valued function, failing as soon as the
function fails; models the propagation of a Go panic out of a loop. -/
def mapOptM {α β : Type} (l : List α) (f : α → Option β) : Option (List β) :=
  match l with
  | [] => some []
  | a :: l => do
    let b ← f a
    let l' ← mapOptM l f
    pure (b :: l')

/-- Model of `updateWeeksColors`: after the max pass, every day's Color is set
to `getColor(day.Count, maxCount, lightMode)`; `none` models a panic inside
`getColor`. -/
def updateWeeksColors (weeks : Weeks) (lightMode : Bool) : Option Weeks :=
  mapOptM weeks (fun week => mapOptM week (fun day =>
    (getColor day.Count (maxCountOf weeks) lightMode).map
      (fun c => { day with Color := c })))

/-! ## Gitea events and their aggregation (contribmap.go 143-148, 287-310) -/

/-- Gitea event as decoded from the events API (`GiteaEvent`); the fields
carry the JSON names `type` and `created_at`. -/
structure GiteaEvent where
  type : String
  created_at : String
  deriving DecidableEq, Repr

/-- Numeric value of an ASCII digit character. -/
def digitVal (c : Char) : Nat := c.toNat - '0'.toNat

/-- Leap-year rule of the proleptic Gregorian calendar, as in Go's time
package. -/
def isLeap (y : Nat) : Bool := y % 4 == 0 && (y % 100 != 0 || y % 400 == 0)

/-- Length in days of a month, as in Go's time package. -/
def daysInMonth (y m : Nat) : Nat :=
  if m = 2 then (if isLeap y then 29 else 28)
  else if m = 4 ∨ m = 6 ∨ m = 9 ∨ m = 11 then 30
  else 31

/-- Drop an optional fractional-seconds part (a dot followed by at least one
digit), as Go's strict RFC3339 parsing does before reading the zone. -/
def dropFrac : List Char → List Char
  | '.' :: c :: rest =>
    if c.isDigit then (c :: rest).dropWhile Char.isDigit else '.' :: c :: rest
  | l => l

/-- Valid RFC3339 zone suffixes: the letter Z, or a numeric offset
sign-hh-colon-mm with hh at most 23 and mm at most 59. -/
def validZone : List Char → Bool
  | ['Z'] => true
  | [s, h1, h2, ':', m1, m2] =>
    (s == '+' || s == '-') && h1.isDigit && h2.isDigit && m1.isDigit && m2.isDigit
      && decide (10 * digitVal h1 + digitVal h2 ≤ 23)
      && decide (10 * digitVal m1 + digitVal m2 ≤ 59)
  | _ => false

/-- Modelled from Go's `time.Parse(time.RFC3339, s)` followed by
`t.Format("2006-01-02")` (contribmap.go lines 293-297): strict RFC3339 with a
four-digit year, two-digit month, day, hour, minute and second, the literal
separators, an optional fractional-seconds part and a Z or numeric-offset
zone, every field range-checked.  Formatting the parsed time in its own zone
reproduces exactly the date portion of the input, so the model returns those
first ten characters. -/
def parseRFC3339Date (s : String) : Option String :=
  match s.data with
  | y1 :: y2 :: y3 :: y4 :: '-' :: m1 :: m2 :: '-' :: d1 :: d2 :: 'T'
      :: h1 :: h2 :: ':' :: n1 :: n2 :: ':' :: s1 :: s2 :: rest =>
    if y1.isDigit && y2.isDigit && y3.isDigit && y4.isDigit
        && m1.isDigit && m2.isDigit && d1.isDigit && d2.isDigit
        && h1.isDigit && h2.isDigit && n1.isDigit && n2.isDigit
        && s1.isDigit && s2.isDigit && validZone (dropFrac rest)
        && decide (1 ≤ 10 * digitVal m1 + digitVal m2)
        && decide (10 * digitVal m1 + digitVal m2 ≤ 12)
        && decide (1 ≤ 10 * digitVal d1 + digitVal d2)
        && decide (10 * digitVal d1 + digitVal d2
            ≤ daysInMonth
                (1000 * digitVal y1 + 100 * digitVal y2 + 10 * digitVal y3 + digitVal y4)
                (10 * digitVal m1 + digitVal m2))
        && decide (10 * digitVal h1 + digitVal h2 ≤ 23)
        && decide (10 * digitVal n1 + digitVal n2 ≤ 59)
        && decide (10 * digitVal s1 + digitVal s2 ≤ 59) then
      some (String.mk [y1, y2, y3, y4, '-', m1, m2, '-', d1, d2])
    else none
  | _ => none

/-- Model of `strings.ToLower` (exact on the ASCII event-type strings the
switch compares against): lower-case every character. -/
def strToLower (s : String) : String := String.mk (s.data.map Char.toLower)

/-- Classification switch of `fetchGiteaContributions` (lines 300-309):
exact match on the lower-cased event type, bumping the matching counter. -/
def classify (cd : CrossData) (ty : String) : CrossData :=
  if strToLower ty = "pushevent" then { cd with Commits := cd.Commits + 1 }
  else if strToLower ty = "pullrequestevent" then
    { cd with PullRequests := cd.PullRequests + 1 }
  else if strToLower ty = "issuestatechangeevent" ∨ strToLower ty = "issueevent" then
    { cd with Issues := cd.Issues + 1 }
  else if strToLower ty = "pullrequestcommentevent"
      ∨ strToLower ty = "pullrequestreviewevent" then
    { cd with CodeReviews := cd.CodeReviews + 1 }
  else cd

/-- Event types the classification switch recognizes. -/
def recognizedType (ty : String) : Bool :=
  strToLower ty == "pushevent" || strToLower ty == "pullrequestevent"
    || strToLower ty == "issuestatechangeevent" || strToLower ty == "issueevent"
    || strToLower ty == "pullrequestcommentevent"
    || strToLower ty == "pullrequestreviewevent"

/-- Lookup with default 0 in the contributions map, modelled as an
association list in insertion order (Go: `contributionsMap[dateStr]`). -/
def lookupD (m : List (String × Nat)) (k : String) : Nat :=
  match m with
  | [] => 0
  | (k', v) :: rest => if k' = k then v else lookupD rest k

/-- Increment of a key in the contributions map
(Go: `contributionsMap[dateStr]++`, inserting with value 1 when absent). -/
def bump (m : List (String × Nat)) (k : String) : List (String × Nat) :=
  match m with
  | [] => [(k, 1)]
  | (k', v) :: rest => if k' = k then (k', v + 1) :: rest else (k', v) :: bump rest k

/-- Sum of all daily counts of the contributions map. -/
def mapTotal (m : List (String × Nat)) : Nat := (m.map Prod.snd).sum

/-- One iteration of the event loop of `fetchGiteaContributions` (lines
291-310): skip the event if its timestamp fails to parse, otherwise bump the
daily count of its date and run the classification switch. -/
def processEvent (acc : List (String × Nat) × CrossData) (e : GiteaEvent) :
    List (String × Nat) × CrossData :=
  match parseRFC3339Date e.created_at with
  | none => acc
  | some dateStr => (bump acc.1 dateStr, classify acc.2 e.type)

/-- The whole event loop of `fetchGiteaContributions`: the daily-count map
and the category totals. -/
def processEvents (events : List GiteaEvent) : List (String × Nat) × CrossData :=
  events.foldl processEvent ([], ⟨0, 0, 0, 0⟩)

/-! ## Civil calendar arithmetic (models the date handling of Go's time
package) and the Gitea week grid (contribmap.go lines 312-344) -/

/-- Civil date (year, month, day) of the day `z` days after 1970-01-01, on
the proleptic Gregorian calendar that Go's time package uses. -/
def civilFromDays (z : Int) : Int × Nat × Nat :=
  let zd := z + 719468
  let era : Int := zd / 146097
  let doe : Nat := (zd - era * 146097).toNat
  let yoe : Nat := (doe - doe / 1460 + doe / 36524 - doe / 146096) / 365
  let doy : Nat := doe - (365 * yoe + yoe / 4 - yoe / 100)
  let mp : Nat := (5 * doy + 2) / 153
  let dd : Nat := doy - (153 * mp + 2) / 5 + 1
  let mm : Nat := if mp < 10 then mp + 3 else mp - 9
  (((yoe : Int) + era * 400) + (if mm ≤ 2 then 1 else 0), mm, dd)

/-- Decimal rendering of `n` left-padded with zeros to width `w`, as Go's
zero-padded numeric layout fields print. -/
def padNum (w n : Nat) : String :=
  String.mk (List.replicate (w - (Nat.repr n).length) '0') ++ Nat.repr n

/-- Year field of the date layout `2006`, zero-padded to four digits. -/
def fmtYear (y : Int) : String :=
  if y < 0 then "-" ++ padNum 4 (-y).toNat else padNum 4 y.toNat

/-- Model of Go's `t.Format("2006-01-02")` for the day `z` days after
1970-01-01. -/
def fmtDay (z : Int) : String :=
  fmtYear (civilFromDays z).1 ++ "-" ++ padNum 2 (civilFromDays z).2.1
    ++ "-" ++ padNum 2 (civilFromDays z).2.2

/-- Weekday of epoch day `z` with Sunday = 0 (1970-01-01 was a Thursday), as
Go's `Time.Weekday` numbers weekdays. -/
def weekdayOf (z : Int) : Int := (z + 4) % 7

/-- Padding cell used to complete the final partial week
(`ContributionDay{Date: "", Count: 0}`). -/
def padCell : ContributionDay := ⟨"", 0, ""⟩

/-- Grid cell for epoch day `d`: formatted date and that date's count from
the contributions map, color left empty. -/
def mkCell (m : List (String × Nat)) (d : Int) : ContributionDay :=
  ⟨fmtDay d, (lookupD m (fmtDay d) : Int), ""⟩

/-- The day-walking loop of `fetchGiteaContributions` (lines 318-344), with
the number of remaining days as explicit fuel: append one cell per day, close
the current week after each Saturday, and on exit pad a nonempty final
partial week with empty cells to length 7. -/
def buildDays (m : List (String × Nat)) : Nat → Int → Weeks →
    List ContributionDay → Weeks
  | 0, _, weeks, cw =>
    if cw.isEmpty then weeks
    else weeks ++ [cw ++ List.replicate (7 - cw.length) padCell]
  | n + 1, d, weeks, cw =>
    if weekdayOf d = 6 then buildDays m n (d + 1) (weeks ++ [cw ++ [mkCell m d]]) []
    else buildDays m n (d + 1) weeks (cw ++ [mkCell m d])

/-- Start of the grid (lines 313-316): back 364 days from today, then back to
the preceding Sunday. -/
def gridStart (today : Int) : Int := (today - 364) - weekdayOf (today - 364)

/-- The week grid of `fetchGiteaContributions`: walk one day at a time from
the start day while the current day is not after today. -/
def buildWeeks (m : List (String × Nat)) (today : Int) : Weeks :=
  buildDays m (today + 1 - gridStart today).toNat (gridStart today) [] []

/-- Model of `fetchGiteaContributions` after HTTP transport and JSON decoding
(lines 287-346), with "today" abstracted to an epoch-day number: the week
grid and the category totals. -/
def fetchGiteaContributions (events : List GiteaEvent) (today : Int) :
    Weeks × CrossData :=
  (buildWeeks (processEvents events).1 today, (processEvents events).2)

/-- Cells of `n` consecutive days starting at epoch day `d`. -/
def cellsFrom (m : List (String × Nat)) (d : Int) : Nat → List ContributionDay
  | 0 => []
  | n + 1 => mkCell m d :: cellsFrom m (d + 1) n

/-- Number of padding cells the loop appends when the walk ends on a day of
weekday `w` (the final partial week has `w` cells unless `w = 0`). -/
def padLen (w : Int) : Nat := if w = 0 then 0 else (7 - w).toNat

/-! ## Heatmap month labels (`generateSVG`, contribmap.go lines 393-412) -/

/-- Three-letter month abbreviation printed by Go's `Format("Jan")`. -/
def monthAbbrev (m : Nat) : String :=
  ["Jan", "Feb", "Mar", "Apr", "May", "Jun",
    "Jul", "Aug", "Sep", "Oct", "Nov", "Dec"].getD (m - 1) ""

/-- Modelled from Go's `time.Parse("2006-01-02", s)`: exactly ten characters,
four year digits, dash, two month digits, dash, two day digits, with month
and day range-checked against the calendar. -/
def parseCivilDate (s : String) : Option (Nat × Nat × Nat) :=
  match s.data with
  | [y1, y2, y3, y4, '-', m1, m2, '-', d1, d2] =>
    if y1.isDigit && y2.isDigit && y3.isDigit && y4.isDigit
        && m1.isDigit && m2.isDigit && d1.isDigit && d2.isDigit
        && decide (1 ≤ 10 * digitVal m1 + digitVal m2)
        && decide (10 * digitVal m1 + digitVal m2 ≤ 12)
        && decide (1 ≤ 10 * digitVal d1 + digitVal d2)
        && decide (10 * digitVal d1 + digitVal d2
            ≤ daysInMonth
                (1000 * digitVal y1 + 100 * digitVal y2 + 10 * digitVal y3 + digitVal y4)
                (10 * digitVal m1 + digitVal m2)) then
      some (1000 * digitVal y1 + 100 * digitVal y2 + 10 * digitVal y3 + digitVal y4,
        10 * digitVal m1 + digitVal m2, 10 * digitVal d1 + digitVal d2)
    else none
  | _ => none

/-- One day of the label scan (inner loop of lines 395-411): a nonempty,
parsable date whose day-of-month is 1 yields that month's abbreviation. -/
def dayMonthStart (day : ContributionDay) : Option String :=
  if day.Date = "" then none
  else
    match parseCivilDate day.Date with
    | none => none
    | some (_, mo, dd) => if dd = 1 then some (monthAbbrev mo) else none

/-- First month-start hit within a week: the loop breaks at the first day
whose day-of-month is 1, and empty or unparsable dates are passed over. -/
def weekMonthCandidate (week : List ContributionDay) : Option String :=
  week.findSome? dayMonthStart

/-- Month labels of the heatmap (`generateSVG` lines 393-412): scan the weeks
left to right, and for a week with a month-start day append a label at the
week's x offset unless it would repeat the last emitted label. -/
def monthLabels (weeks : Weeks) : List MonthLabel :=
  weeks.enum.foldl
    (fun labels iw =>
      match weekMonthCandidate iw.2 with
      | none => labels
      | some lbl =>
        if (labels.getLast?).map MonthLabel.Label = some lbl then labels
        else labels ++ [⟨cellMargin + iw.1 * (cellSize + cellMargin), lbl⟩])
    []

/-- Reference description of the month-label scan from the spec: walk the
weeks left to right carrying the week index and the last emitted label; a
week whose first nonempty, parsable day-of-month-1 day exists emits that
month's abbreviation at the week's x offset, unless it equals the last
emitted label. -/
def monthLabelsSpec : Nat → Option String → Weeks → List MonthLabel
  | _, _, [] => []
  | i, lastLbl, w :: rest =>
    match weekMonthCandidate w with
    | none => monthLabelsSpec (i + 1) lastLbl rest
    | some lbl =>
      if lastLbl = some lbl then monthLabelsSpec (i + 1) lastLbl rest
      else ⟨cellMargin + i * (cellSize + cellMargin), lbl⟩
          :: monthLabelsSpec (i + 1) (some lbl) rest

/-! ## Theorems -/

theorem bucketWidthOf_pos (maxCount : Int) : 0 < bucketWidthOf maxCount := by
  unfold bucketWidthOf
  split <;> omega

theorem bucketWidthOf_eq_max (maxCount : Int) :
    bucketWidthOf maxCount = max 1 (ceilDiv (maxCount - 1) 5) := by
  unfold bucketWidthOf bucketCount
  split
  · rw [max_eq_left (by omega)]
  · rw [max_eq_right (by omega)]

theorem bucketIndexOf_nonneg {count : Int} (maxCount : Int) (h : 1 ≤ count) :
    0 ≤ bucketIndexOf count maxCount := by
  have hbw := bucketWidthOf_pos maxCount
  have h0 : 0 ≤ Int.tdiv (count - 1) (bucketWidthOf maxCount) :=
    Int.tdiv_nonneg (by omega) (by omega)
  unfold bucketIndexOf bucketCount
  split <;> omega

theorem bucketIndexOf_le_four {count : Int} (maxCount : Int) (_h : 1 ≤ count) :
    bucketIndexOf count maxCount ≤ 4 := by
  have hbw := bucketWidthOf_pos maxCount
  unfold bucketIndexOf bucketCount
  split <;> omega

/-- Helper shared by the safety and frame theorems: for a nonnegative count,
`getColor` never panics. -/
theorem getColor_isSome {count : Int} (maxCount : Int) (lightMode : Bool)
    (h : 0 ≤ count) : (getColor count maxCount lightMode).isSome := by
  unfold getColor
  by_cases h0 : count = 0
  · simp [h0]
  · have h1 : 1 ≤ count := by omega
    have hge := bucketIndexOf_nonneg maxCount h1
    have hle := bucketIndexOf_le_four maxCount h1
    rw [if_neg h0, if_pos hge]
    have htn : (bucketIndexOf count maxCount).toNat ≤ 4 := by omega
    set n := (bucketIndexOf count maxCount).toNat with hn
    interval_cases n <;> cases lightMode <;> decide

theorem bucketIndexOf_eq_spec {count : Int} (maxCount : Int) (h : 1 ≤ count) :
    bucketIndexOf count maxCount
      = min (max ((count - 1) / max 1 (ceilDiv (maxCount - 1) 5)) 0) 4 := by
  have hbw := bucketWidthOf_pos maxCount
  rw [← bucketWidthOf_eq_max maxCount]
  have hdv : Int.tdiv (count - 1) (bucketWidthOf maxCount)
      = (count - 1) / bucketWidthOf maxCount :=
    Int.tdiv_eq_ediv (by omega) (by omega)
  have hnn : 0 ≤ (count - 1) / bucketWidthOf maxCount :=
    Int.ediv_nonneg (by omega) (by omega)
  unfold bucketIndexOf bucketCount
  rw [hdv, max_eq_left hnn]
  split
  · rw [min_eq_right (by omega)]; omega
  · rw [min_eq_left (by omega)]

theorem getColor_eq_colorForSpec {count : Int} (maxCount : Int) (lightMode : Bool)
    (h : 0 ≤ count) :
    getColor count maxCount lightMode = some (colorForSpec count maxCount lightMode) := by
  by_cases h0 : count = 0
  · simp [getColor, colorForSpec, h0]
  · have h1 : 1 ≤ count := by omega
    have hge := bucketIndexOf_nonneg maxCount h1
    have hle := bucketIndexOf_le_four maxCount h1
    unfold getColor colorForSpec
    rw [if_neg h0, if_neg h0, if_pos hge, ← bucketIndexOf_eq_spec maxCount h1]
    have htn : (bucketIndexOf count maxCount).toNat ≤ 4 := by omega
    set n := (bucketIndexOf count maxCount).toNat with hn
    interval_cases n <;> cases lightMode <;> rfl

/-- C1: the color-bucketing function `getColor` matches the spec's reference
definition: a zero count returns the fixed zero color of the mode, distinct
from the darkest nonzero bucket entry, and a nonzero count returns the mode's
palette entry at index `floor((count-1)/bucketWidth)` clamped to `[0, 4]`,
where `bucketWidth = max(1, ceil((maxCount-1)/5))`; for `maxCount = 10`,
`count = 10` yields bucket 4 and `count = 1` yields bucket 0. -/
theorem getColor_matches_spec :
    (∀ count maxCount : Int, ∀ lightMode : Bool, 0 ≤ count →
        getColor count maxCount lightMode = some (colorForSpec count maxCount lightMode))
      ∧ (∀ maxCount : Int, ∀ lightMode : Bool,
          getColor 0 maxCount lightMode = some (zeroColor lightMode)
            ∧ zeroColor lightMode ≠ (bucketColors lightMode).getD 0 "")
      ∧ (∀ lightMode : Bool,
          getColor 10 10 lightMode = (bucketColors lightMode).get? 4
            ∧ getColor 1 10 lightMode = (bucketColors lightMode).get? 0) := by
  refine ⟨fun count maxCount lightMode h => getColor_eq_colorForSpec maxCount lightMode h,
    fun maxCount lightMode => ⟨by simp [getColor], ?_⟩, fun lightMode => ⟨?_, ?_⟩⟩
  · cases lightMode <;> decide
  · cases lightMode <;> decide
  · cases lightMode <;> decide

/-- Witness for `getColor_matches_spec` at `count = 3`, `maxCount = 7`. -/
theorem getColor_matches_spec_witness :
    getColor 3 7 false = some (colorForSpec 3 7 false) :=
  getColor_matches_spec.1 3 7 false (by decide)

/-- C7: for every `maxCount ≥ 1` and counts in `[1, maxCount]`, the bucket
index computed by `getColor` is monotonically non-decreasing in the count and
always lies in `[0, 4]`. -/
theorem bucketIndex_monotone_inbounds :
    ∀ maxCount c1 c2 : Int, ∀ lightMode : Bool,
      1 ≤ maxCount → 1 ≤ c1 → c1 ≤ c2 → c2 ≤ maxCount →
        bucketIndexOf c1 maxCount ≤ bucketIndexOf c2 maxCount
          ∧ 0 ≤ bucketIndexOf c1 maxCount ∧ bucketIndexOf c1 maxCount ≤ 4
          ∧ getColor c1 maxCount lightMode
              = (bucketColors lightMode).get? (bucketIndexOf c1 maxCount).toNat := by
  intro maxCount c1 c2 lightMode hm h1 h12 h2m
  have hbw := bucketWidthOf_pos maxCount
  have e1 : Int.tdiv (c1 - 1) (bucketWidthOf maxCount) = (c1 - 1) / bucketWidthOf maxCount :=
    Int.tdiv_eq_ediv (by omega) (by omega)
  have e2 : Int.tdiv (c2 - 1) (bucketWidthOf maxCount) = (c2 - 1) / bucketWidthOf maxCount :=
    Int.tdiv_eq_ediv (by omega) (by omega)
  have hmono : (c1 - 1) / bucketWidthOf maxCount ≤ (c2 - 1) / bucketWidthOf maxCount :=
    Int.ediv_le_ediv hbw (by omega)
  refine ⟨?_, bucketIndexOf_nonneg maxCount h1, bucketIndexOf_le_four maxCount h1, ?_⟩
  · unfold bucketIndexOf bucketCount
    rw [e1, e2]
    split <;> split <;> omega
  · have hge := bucketIndexOf_nonneg maxCount h1
    unfold getColor
    rw [if_neg (by omega : ¬c1 = 0), if_pos hge]

/-- Witness for `bucketIndex_monotone_inbounds` at `maxCount = 3`, counts 1 and 2. -/
theorem bucketIndex_monotone_inbounds_witness :
    bucketIndexOf 1 3 ≤ bucketIndexOf 2 3
      ∧ 0 ≤ bucketIndexOf 1 3 ∧ bucketIndexOf 1 3 ≤ 4
      ∧ getColor 1 3 false = (bucketColors false).get? (bucketIndexOf 1 3).toNat :=
  bucketIndex_monotone_inbounds 3 1 2 false (by decide) (by decide) (by decide) (by decide)

/-- C10: `getColor` is total with in-bounds palette access for every
nonnegative count and arbitrary `maxCount` (including zero and negative
values); the `count ≥ 0` precondition is necessary, since a negative count
produces a negative palette index, modelled as `none` (Go would panic). -/
theorem getColor_total_inbounds :
    (∀ count maxCount : Int, ∀ lightMode : Bool, 0 ≤ count →
        (getColor count maxCount lightMode).isSome)
      ∧ (∀ count maxCount : Int, 1 ≤ count →
          0 ≤ bucketIndexOf count maxCount ∧ bucketIndexOf count maxCount ≤ 4)
      ∧ getColor (-1) 10 false = none ∧ getColor (-1) 10 true = none :=
  ⟨fun _count maxCount lightMode h => getColor_isSome maxCount lightMode h,
    fun _count maxCount h =>
      ⟨bucketIndexOf_nonneg maxCount h, bucketIndexOf_le_four maxCount h⟩,
    by decide, by decide⟩

/-- Witness for `getColor_total_inbounds` at `count = 5`, `maxCount = 10` and
`count = 2`, `maxCount = 9`. -/
theorem getColor_total_inbounds_witness :
    (getColor 5 10 false).isSome ∧ (0 ≤ bucketIndexOf 2 9 ∧ bucketIndexOf 2 9 ≤ 4) :=
  ⟨getColor_total_inbounds.1 5 10 false (by decide),
    getColor_total_inbounds.2.1 2 9 (by decide)⟩

/-- C5: with `total = commits + pullRequests + issues + codeReviews`, a zero
total yields four exactly-zero percentages (no division by zero), and a
positive total yields percentages `100 * category / total` that sum exactly
to 100 in rational arithmetic. -/
theorem cross_percentages_spec (cd : CrossData) :
    (crossTotal cd = 0 → crossPercentages cd = (0, 0, 0, 0))
      ∧ (0 < crossTotal cd →
          crossPercentages cd
              = (100 * (cd.Commits : ℚ) / (crossTotal cd : ℚ),
                  100 * (cd.PullRequests : ℚ) / (crossTotal cd : ℚ),
                  100 * (cd.Issues : ℚ) / (crossTotal cd : ℚ),
                  100 * (cd.CodeReviews : ℚ) / (crossTotal cd : ℚ))
            ∧ (crossPercentages cd).1 + (crossPercentages cd).2.1
                + (crossPercentages cd).2.2.1 + (crossPercentages cd).2.2.2 = 100) := by
  constructor
  · intro h
    rw [crossPercentages, if_neg (by omega)]
  · intro h
    have ht : (crossTotal cd : ℚ) ≠ 0 := by
      have hne : crossTotal cd ≠ 0 := by omega
      exact_mod_cast hne
    have he : crossPercentages cd
        = (100 * (cd.Commits : ℚ) / (crossTotal cd : ℚ),
            100 * (cd.PullRequests : ℚ) / (crossTotal cd : ℚ),
            100 * (cd.Issues : ℚ) / (crossTotal cd : ℚ),
            100 * (cd.CodeReviews : ℚ) / (crossTotal cd : ℚ)) := by
      rw [crossPercentages, if_pos h]
      simp only [Prod.mk.injEq]
      refine ⟨by ring, by ring, by ring, by ring⟩
    refine ⟨he, ?_⟩
    rw [he]
    have hts : (crossTotal cd : ℚ)
        = (cd.Commits : ℚ) + (cd.PullRequests : ℚ) + (cd.Issues : ℚ) + (cd.CodeReviews : ℚ) := by
      rw [crossTotal]
      push_cast
      ring
    field_simp
    rw [hts]
    ring

/-- Witness for `cross_percentages_spec` at the zero totals and at totals
(1, 2, 3, 4). -/
theorem cross_percentages_spec_witness :
    crossPercentages ⟨0, 0, 0, 0⟩ = (0, 0, 0, 0)
      ∧ (crossPercentages ⟨1, 2, 3, 4⟩).1 + (crossPercentages ⟨1, 2, 3, 4⟩).2.1
          + (crossPercentages ⟨1, 2, 3, 4⟩).2.2.1
          + (crossPercentages ⟨1, 2, 3, 4⟩).2.2.2 = 100 :=
  ⟨(cross_percentages_spec ⟨0, 0, 0, 0⟩).1 (by decide),
    ((cross_percentages_spec ⟨1, 2, 3, 4⟩).2 (by decide)).2⟩

/-- C6: the weighted indicator point has
`x = 50 + issues/(commits+issues) * 200` when `commits + issues > 0` and
`x = 150` otherwise, `y = 50 + pullRequests/(codeReviews+pullRequests) * 200`
when `codeReviews + pullRequests > 0` and `y = 150` otherwise; with all four
totals zero the point is exactly (150, 150). -/
theorem cross_point_spec (cd : CrossData) :
    (0 < cd.Commits + cd.Issues →
        (crossPoint cd).1
          = 50 + (cd.Issues : ℚ) / ((cd.Commits : ℚ) + (cd.Issues : ℚ)) * 200)
      ∧ (¬0 < cd.Commits + cd.Issues → (crossPoint cd).1 = 150)
      ∧ (0 < cd.CodeReviews + cd.PullRequests →
          (crossPoint cd).2
            = 50 + (cd.PullRequests : ℚ)
                / ((cd.CodeReviews : ℚ) + (cd.PullRequests : ℚ)) * 200)
      ∧ (¬0 < cd.CodeReviews + cd.PullRequests → (crossPoint cd).2 = 150)
      ∧ crossPoint ⟨0, 0, 0, 0⟩ = (150, 150) := by
  refine ⟨fun h => ?_, fun h => ?_, fun h => ?_, fun h => ?_, by decide⟩
  · simp only [crossPoint]
    rw [if_pos h]
    norm_num [leftX, rightX]
  · simp only [crossPoint]
    rw [if_neg h]
    norm_num [crossCenterX, crossSVGWidth]
  · simp only [crossPoint]
    rw [if_pos h]
    norm_num [topY, bottomY]
  · simp only [crossPoint]
    rw [if_neg h]
    norm_num [crossCenterY, crossSVGHeight]

/-- Witness for `cross_point_spec` at totals (1, 0, 1, 0) and (0, 0, 0, 0). -/
theorem cross_point_spec_witness :
    (crossPoint ⟨1, 0, 1, 0⟩).1
        = 50 + ((1 : Int) : ℚ) / (((1 : Int) : ℚ) + ((1 : Int) : ℚ)) * 200
      ∧ (crossPoint ⟨0, 0, 0, 0⟩).1 = 150 :=
  ⟨(cross_point_spec ⟨1, 0, 1, 0⟩).1 (by decide),
    (cross_point_spec ⟨0, 0, 0, 0⟩).2.1 (by decide)⟩

theorem mapOptM_forall {α β : Type} (f : α → Option β) (R : α → β → Prop) :
    ∀ l : List α, (∀ a ∈ l, ∃ b, f a = some b ∧ R a b) →
      ∃ l', mapOptM l f = some l' ∧ List.Forall₂ R l l'
  | [], _ => ⟨[], rfl, List.Forall₂.nil⟩
  | a :: l, h => by
    obtain ⟨b, hb, hR⟩ := h a (List.mem_cons_self a l)
    obtain ⟨l', hl', hF⟩ := mapOptM_forall f R l (fun x hx => h x (List.mem_cons_of_mem a hx))
    exact ⟨b :: l', by simp [mapOptM, hb, hl'], List.Forall₂.cons hR hF⟩

theorem le_foldlMaxDay (l : List ContributionDay) : ∀ a : Int,
    a ≤ l.foldl (fun m day => if day.Count > m then day.Count else m) a := by
  induction l with
  | nil => intro a; exact le_refl a
  | cons d l ih =>
    intro a
    simp only [List.foldl_cons]
    refine le_trans ?_ (ih _)
    split <;> omega

theorem mem_le_foldlMaxDay (l : List ContributionDay) : ∀ a : Int, ∀ d ∈ l,
    d.Count ≤ l.foldl (fun m day => if day.Count > m then day.Count else m) a := by
  induction l with
  | nil => intro a d hd; cases hd
  | cons e l ih =>
    intro a d hd
    simp only [List.foldl_cons]
    rcases List.mem_cons.mp hd with h | h
    · subst h
      refine le_trans ?_ (le_foldlMaxDay l _)
      split <;> omega
    · exact ih _ d h

theorem foldlMaxDay_attained (l : List ContributionDay) : ∀ a : Int,
    l.foldl (fun m day => if day.Count > m then day.Count else m) a = a
      ∨ ∃ d ∈ l, l.foldl (fun m day => if day.Count > m then day.Count else m) a = d.Count := by
  induction l with
  | nil => intro a; exact Or.inl rfl
  | cons e l ih =>
    intro a
    simp only [List.foldl_cons]
    rcases ih (if e.Count > a then e.Count else a) with h | ⟨d, hd, hEq⟩
    · rw [h]
      split
      · exact Or.inr ⟨e, List.mem_cons_self e l, rfl⟩
      · exact Or.inl rfl
    · exact Or.inr ⟨d, List.mem_cons_of_mem e hd, hEq⟩

theorem le_foldlMaxWeeks (ws : Weeks) : ∀ a : Int,
    a ≤ ws.foldl
        (fun m week => week.foldl (fun m day => if day.Count > m then day.Count else m) m) a := by
  induction ws with
  | nil => intro a; exact le_refl a
  | cons w ws ih =>
    intro a
    simp only [List.foldl_cons]
    exact le_trans (le_foldlMaxDay w a) (ih _)

theorem mem_le_maxCountOf (weeks : Weeks) :
    ∀ w ∈ weeks, ∀ d ∈ w, d.Count ≤ maxCountOf weeks := by
  unfold maxCountOf
  generalize (0 : Int) = a
  induction weeks generalizing a with
  | nil => intro w hw; cases hw
  | cons v ws ih =>
    intro w hw d hd
    simp only [List.foldl_cons]
    rcases List.mem_cons.mp hw with h | h
    · subst h
      exact le_trans (mem_le_foldlMaxDay w a d hd) (le_foldlMaxWeeks ws _)
    · exact ih _ w h d hd

theorem maxCountOf_attained (weeks : Weeks) :
    maxCountOf weeks = 0 ∨ ∃ w ∈ weeks, ∃ d ∈ w, maxCountOf weeks = d.Count := by
  unfold maxCountOf
  generalize (0 : Int) = a
  induction weeks generalizing a with
  | nil => exact Or.inl rfl
  | cons v ws ih =>
    simp only [List.foldl_cons]
    rcases ih (v.foldl (fun m day => if day.Count > m then day.Count else m) a) with h | h
    · rw [h]
      rcases foldlMaxDay_attained v a with h' | ⟨d, hd, hEq⟩
      · exact Or.inl h'
      · exact Or.inr ⟨v, List.mem_cons_self v ws, d, hd, hEq⟩
    · obtain ⟨w, hw, d, hd, hEq⟩ := h
      exact Or.inr ⟨w, List.mem_cons_of_mem v hw, d, hd, hEq⟩

/-- C4: `updateWeeksColors` first computes `maxCount` as the maximum Count
over every day of every week (its running maximum starts at 0, so 0 for an
empty grid), then sets each day's Color to
`getColor(day.Count, maxCount, lightMode)`; the Date and Count fields, the
number of weeks and the length of every week are unchanged — only Color is
rewritten. -/
theorem updateWeeksColors_frame (weeks : Weeks) (lightMode : Bool)
    (h : ∀ w ∈ weeks, ∀ d ∈ w, 0 ≤ d.Count) :
    (∀ w ∈ weeks, ∀ d ∈ w, d.Count ≤ maxCountOf weeks)
      ∧ (maxCountOf weeks = 0 ∨ ∃ w ∈ weeks, ∃ d ∈ w, maxCountOf weeks = d.Count)
      ∧ ∃ weeks', updateWeeksColors weeks lightMode = some weeks'
          ∧ weeks'.length = weeks.length
          ∧ List.Forall₂ (List.Forall₂ (fun d d' =>
              d'.Date = d.Date ∧ d'.Count = d.Count
                ∧ some d'.Color = getColor d.Count (maxCountOf weeks) lightMode))
              weeks weeks' := by
  refine ⟨mem_le_maxCountOf weeks, maxCountOf_attained weeks, ?_⟩
  obtain ⟨weeks', hW, hF⟩ :=
    mapOptM_forall
      (fun week => mapOptM week (fun day =>
        (getColor day.Count (maxCountOf weeks) lightMode).map
          (fun c => { day with Color := c })))
      (List.Forall₂ (fun d d' =>
        d'.Date = d.Date ∧ d'.Count = d.Count
          ∧ some d'.Color = getColor d.Count (maxCountOf weeks) lightMode))
      weeks
      (fun w hw => by
        refine mapOptM_forall _ _ w (fun d hd => ?_)
        obtain ⟨c, hc⟩ := Option.isSome_iff_exists.mp
          (getColor_isSome (maxCountOf weeks) lightMode (h w hw d hd))
        exact ⟨{ d with Color := c }, by rw [hc]; rfl, rfl, rfl, by rw [hc]⟩)
  exact ⟨weeks', hW, (List.Forall₂.length_eq hF).symm, hF⟩

/-- Witness for `updateWeeksColors_frame` on a one-week, one-day grid. -/
theorem updateWeeksColors_frame_witness :
    ∃ weeks' : Weeks, updateWeeksColors [[⟨"2024-01-01", 2, ""⟩]] false = some weeks'
        ∧ weeks'.length = ([[⟨"2024-01-01", 2, ""⟩]] : Weeks).length
        ∧ List.Forall₂ (List.Forall₂ (fun (d d' : ContributionDay) =>
            d'.Date = d.Date ∧ d'.Count = d.Count
              ∧ some d'.Color
                  = getColor d.Count (maxCountOf [[⟨"2024-01-01", 2, ""⟩]]) false))
            [[⟨"2024-01-01", 2, ""⟩]] weeks' :=
  (updateWeeksColors_frame [[⟨"2024-01-01", 2, ""⟩]] false (by decide)).2.2

/-- C3: normalizing the two-event Gitea example yields daily count 2 for day
2024-01-01 and category totals commits 1, pullRequests 1, issues 0,
codeReviews 0; the type match is case-insensitive. -/
theorem gitea_example :
    lookupD (processEvents
        [⟨"PushEvent", "2024-01-01T10:00:00Z"⟩,
          ⟨"PullRequestEvent", "2024-01-01T11:00:00Z"⟩]).1 "2024-01-01" = 2
      ∧ (processEvents
          [⟨"PushEvent", "2024-01-01T10:00:00Z"⟩,
            ⟨"PullRequestEvent", "2024-01-01T11:00:00Z"⟩]).2 = ⟨1, 1, 0, 0⟩
      ∧ processEvents
            [⟨"pushevent", "2024-01-01T10:00:00Z"⟩,
              ⟨"PULLREQUESTEVENT", "2024-01-01T11:00:00Z"⟩]
          = processEvents
            [⟨"PushEvent", "2024-01-01T10:00:00Z"⟩,
              ⟨"PullRequestEvent", "2024-01-01T11:00:00Z"⟩] :=
  ⟨by decide, by decide, by decide⟩

theorem classify_unrecognized {ty : String} (h : recognizedType ty = false)
    (cd : CrossData) : classify cd ty = cd := by
  unfold recognizedType at h
  simp only [Bool.or_eq_false_iff, beq_eq_false_iff_ne, ne_eq] at h
  obtain ⟨⟨⟨⟨⟨h1, h2⟩, h3⟩, h4⟩, h5⟩, h6⟩ := h
  unfold classify
  rw [if_neg h1, if_neg h2, if_neg (by tauto), if_neg (by tauto)]

theorem lookupD_bump (m : List (String × Nat)) (k : String) :
    lookupD (bump m k) k = lookupD m k + 1 := by
  induction m with
  | nil => simp [bump, lookupD]
  | cons p rest ih =>
    obtain ⟨k', v⟩ := p
    by_cases hk : k' = k
    · simp [bump, lookupD, hk]
    · simp only [bump, lookupD, if_neg hk]
      exact ih

theorem mapTotal_bump (m : List (String × Nat)) (k : String) :
    mapTotal (bump m k) = mapTotal m + 1 := by
  induction m with
  | nil => simp [bump, mapTotal]
  | cons p rest ih =>
    obtain ⟨k', v⟩ := p
    by_cases hk : k' = k
    · simp [bump, mapTotal, hk]
      omega
    · simp only [bump, if_neg hk, mapTotal, List.map_cons, List.sum_cons] at ih ⊢
      omega

theorem crossTotal_classify_le (cd : CrossData) (ty : String) :
    crossTotal (classify cd ty) ≤ crossTotal cd + 1 := by
  unfold classify
  split_ifs <;> simp [crossTotal] <;> omega

theorem processEvents_filter_aux (events : List GiteaEvent) :
    ∀ acc : List (String × Nat) × CrossData,
      events.foldl processEvent acc
        = (events.filter (fun e => (parseRFC3339Date e.created_at).isSome)).foldl
            processEvent acc := by
  induction events with
  | nil => intro acc; rfl
  | cons e rest ih =>
    intro acc
    rw [List.filter_cons, List.foldl_cons]
    cases hp : parseRFC3339Date e.created_at with
    | none =>
      have hstep : processEvent acc e = acc := by
        unfold processEvent
        rw [hp]
      simp only [hp, Option.isSome_none, Bool.false_eq_true, if_false, hstep]
      exact ih acc
    | some ds =>
      simp only [hp, Option.isSome_some, if_true]
      rw [List.foldl_cons]
      exact ih (processEvent acc e)

theorem crossTotal_le_mapTotal_aux (events : List GiteaEvent) :
    ∀ (m : List (String × Nat)) (cd : CrossData),
      crossTotal cd ≤ (mapTotal m : Int) →
        crossTotal (events.foldl processEvent (m, cd)).2
          ≤ (mapTotal (events.foldl processEvent (m, cd)).1 : Int) := by
  induction events with
  | nil => intro m cd h; exact h
  | cons e rest ih =>
    intro m cd h
    rw [List.foldl_cons]
    cases hp : parseRFC3339Date e.created_at with
    | none =>
      have hstep : processEvent (m, cd) e = (m, cd) := by
        unfold processEvent
        rw [hp]
      rw [hstep]
      exact ih m cd h
    | some ds =>
      have hstep : processEvent (m, cd) e = (bump m ds, classify cd e.type) := by
        unfold processEvent
        rw [hp]
      rw [hstep]
      refine ih _ _ ?_
      have h1 := crossTotal_classify_le cd e.type
      have h2 := mapTotal_bump m ds
      have h2' : (mapTotal (bump m ds) : Int) = (mapTotal m : Int) + 1 := by
        exact_mod_cast h2
      omega

/-- C8: an event whose timestamp fails to parse contributes to neither the
daily-count map nor the category totals; a parsable event of unrecognized
type bumps its day's count but no category total; and the sum of the four
category totals never exceeds the sum of all daily counts. -/
theorem gitea_event_handling :
    (∀ events : List GiteaEvent,
        processEvents events
          = processEvents
              (events.filter (fun e => (parseRFC3339Date e.created_at).isSome)))
      ∧ (∀ (events : List GiteaEvent) (e : GiteaEvent) (ds : String),
          parseRFC3339Date e.created_at = some ds → recognizedType e.type = false →
            (processEvents (events ++ [e])).2 = (processEvents events).2
              ∧ lookupD (processEvents (events ++ [e])).1 ds
                  = lookupD (processEvents events).1 ds + 1)
      ∧ (∀ events : List GiteaEvent,
          crossTotal (processEvents events).2
            ≤ (mapTotal (processEvents events).1 : Int)) := by
  refine ⟨fun events => processEvents_filter_aux events _, ?_, ?_⟩
  · intro events e ds hp hr
    have happ : processEvents (events ++ [e])
        = processEvent (processEvents events) e := by
      unfold processEvents
      rw [List.foldl_append, List.foldl_cons, List.foldl_nil]
    have hstep : processEvent (processEvents events) e
        = (bump (processEvents events).1 ds, classify (processEvents events).2 e.type) := by
      unfold processEvent
      rw [hp]
    rw [happ, hstep, classify_unrecognized hr]
    exact ⟨rfl, lookupD_bump _ ds⟩
  · intro events
    exact crossTotal_le_mapTotal_aux events [] ⟨0, 0, 0, 0⟩ (by simp [crossTotal, mapTotal])

/-- Witness for `gitea_event_handling` on one parsable event of unrecognized
type appended to the empty event list. -/
theorem gitea_event_handling_witness :
    (processEvents ([] ++ [⟨"WeirdEvent", "2024-01-01T10:00:00Z"⟩])).2
        = (processEvents ([] : List GiteaEvent)).2
      ∧ lookupD (processEvents ([] ++ [⟨"WeirdEvent", "2024-01-01T10:00:00Z"⟩])).1
            "2024-01-01"
          = lookupD (processEvents ([] : List GiteaEvent)).1 "2024-01-01" + 1 :=
  gitea_event_handling.2.1 [] ⟨"WeirdEvent", "2024-01-01T10:00:00Z"⟩ "2024-01-01"
    (by decide) (by decide)

theorem weekdayOf_nonneg (z : Int) : 0 ≤ weekdayOf z := by
  unfold weekdayOf
  omega

theorem weekdayOf_lt (z : Int) : weekdayOf z < 7 := by
  unfold weekdayOf
  omega

theorem weekdayOf_succ (z : Int) :
    weekdayOf (z + 1) = if weekdayOf z = 6 then 0 else weekdayOf z + 1 := by
  unfold weekdayOf
  split <;> omega

theorem weekdayOf_sub_self (z : Int) : weekdayOf (z - weekdayOf z) = 0 := by
  unfold weekdayOf
  omega

theorem fmtDay_ne_empty (z : Int) : fmtDay z ≠ "" := by
  unfold fmtDay
  intro h
  have hl := congrArg String.length h
  simp only [String.length_append] at hl
  have h1 : ("-" : String).length = 1 := rfl
  have h0 : ("" : String).length = 0 := rfl
  omega

theorem cellsFrom_eq_map (m : List (String × Nat)) : ∀ (n : Nat) (d : Int),
    cellsFrom m d n
      = (List.range n).map (fun (k : Nat) => mkCell m (d + (k : Int))) := by
  intro n
  induction n with
  | zero => intro d; rfl
  | succ n ih =>
    intro d
    rw [List.range_succ_eq_map, List.map_cons, List.map_map]
    simp only [cellsFrom, Function.comp]
    congr 1
    · congr 1
      simp
    · rw [ih]
      congr 1
      funext k
      congr 1
      push_cast
      ring

theorem buildDays_join (m : List (String × Nat)) : ∀ (n : Nat) (d : Int)
    (weeks : Weeks) (cw : List ContributionDay),
    (cw.length : Int) = weekdayOf d →
      (buildDays m n d weeks cw).flatten
        = weeks.flatten ++ cw ++ cellsFrom m d n
            ++ List.replicate (padLen (weekdayOf (d + (n : Int)))) padCell := by
  intro n
  induction n with
  | zero =>
    intro d weeks cw hcw
    simp only [Nat.cast_zero, add_zero, cellsFrom, List.append_nil]
    unfold buildDays
    cases cw with
    | nil =>
      have h0 : weekdayOf d = 0 := by simpa using hcw.symm
      simp [padLen, h0]
    | cons c cs =>
      have hwlt := weekdayOf_lt d
      have h0 : weekdayOf d ≠ 0 := by
        rw [← hcw]
        simp only [List.length_cons]
        push_cast
        omega
      rw [if_neg (by simp)]
      rw [List.flatten_append]
      simp only [List.flatten_cons, List.flatten_nil, List.append_nil]
      have hpl : padLen (weekdayOf d) = 7 - (c :: cs).length := by
        unfold padLen
        rw [if_neg h0]
        omega
      rw [hpl, List.append_assoc]
  | succ n ih =>
    intro d weeks cw hcw
    have hwlt := weekdayOf_lt d
    have hw0 := weekdayOf_nonneg d
    have harg : d + ((n + 1 : Nat) : Int) = (d + 1) + (n : Int) := by push_cast; ring
    unfold buildDays
    by_cases hsat : weekdayOf d = 6
    · rw [if_pos hsat]
      have hnext : weekdayOf (d + 1) = 0 := by rw [weekdayOf_succ, if_pos hsat]
      rw [ih (d + 1) (weeks ++ [cw ++ [mkCell m d]]) [] (by simp [hnext])]
      rw [List.flatten_append, harg]
      simp only [List.flatten_cons, List.flatten_nil, List.append_nil, cellsFrom]
      simp [List.append_assoc]
    · rw [if_neg hsat]
      have hnext : weekdayOf (d + 1) = weekdayOf d + 1 := by
        rw [weekdayOf_succ, if_neg hsat]
      have hcw' : ((cw ++ [mkCell m d]).length : Int) = weekdayOf (d + 1) := by
        rw [hnext]
        simp only [List.length_append, List.length_cons, List.length_nil]
        push_cast
        omega
      rw [ih (d + 1) weeks (cw ++ [mkCell m d]) hcw', harg]
      simp only [cellsFrom]
      simp [List.append_assoc]

theorem buildDays_length7 (m : List (String × Nat)) : ∀ (n : Nat) (d : Int)
    (weeks : Weeks) (cw : List ContributionDay),
    (cw.length : Int) = weekdayOf d →
      (∀ w ∈ weeks, w.length = 7) →
      ∀ w ∈ buildDays m n d weeks cw, w.length = 7 := by
  intro n
  induction n with
  | zero =>
    intro d weeks cw hcw hweeks w hw
    have hwlt := weekdayOf_lt d
    unfold buildDays at hw
    cases cw with
    | nil =>
      rw [if_pos (by simp)] at hw
      exact hweeks w hw
    | cons c cs =>
      rw [if_neg (by simp)] at hw
      rcases List.mem_append.mp hw with h | h
      · exact hweeks w h
      · have hweq : w = (c :: cs) ++ List.replicate (7 - (c :: cs).length) padCell := by
          simpa using h
        subst hweq
        simp only [List.length_append, List.length_replicate]
        omega
  | succ n ih =>
    intro d weeks cw hcw hweeks w hw
    have hwlt := weekdayOf_lt d
    unfold buildDays at hw
    by_cases hsat : weekdayOf d = 6
    · rw [if_pos hsat] at hw
      have hnext : weekdayOf (d + 1) = 0 := by rw [weekdayOf_succ, if_pos hsat]
      refine ih (d + 1) _ [] (by simp [hnext]) ?_ w hw
      intro w' hw'
      rcases List.mem_append.mp hw' with h | h
      · exact hweeks w' h
      · have hweq : w' = cw ++ [mkCell m d] := by simpa using h
        subst hweq
        simp only [List.length_append, List.length_cons, List.length_nil]
        omega
    · rw [if_neg hsat] at hw
      have hnext : weekdayOf (d + 1) = weekdayOf d + 1 := by
        rw [weekdayOf_succ, if_neg hsat]
      have hcw' : ((cw ++ [mkCell m d]).length : Int) = weekdayOf (d + 1) := by
        rw [hnext]
        simp only [List.length_append, List.length_cons, List.length_nil]
        push_cast
        omega
      exact ih (d + 1) weeks (cw ++ [mkCell m d]) hcw' hweeks w hw

/-- C2: for every event list and every value of today, the Gitea week grid
starts at the Sunday on or before today - 364 days, every week of the grid
has exactly 7 entries, and the grid's cells are exactly one per calendar day
from that Sunday through today in order (weeks closing every Saturday),
followed only by trailing padding cells with empty date and count 0; real
cells always carry a nonempty formatted date. -/
theorem gitea_grid_shape (events : List GiteaEvent) (today : Int) :
    weekdayOf (gridStart today) = 0
      ∧ gridStart today ≤ today - 364
      ∧ today - 364 < gridStart today + 7
      ∧ (∀ w ∈ (fetchGiteaContributions events today).1, w.length = 7)
      ∧ ∃ p : Nat, p < 7
          ∧ ((fetchGiteaContributions events today).1).flatten
              = (List.range (today + 1 - gridStart today).toNat).map
                  (fun (k : Nat) =>
                    mkCell (processEvents events).1 (gridStart today + (k : Int)))
                ++ List.replicate p padCell
          ∧ (∀ k : Nat,
              mkCell (processEvents events).1 (gridStart today + (k : Int))
                  = ⟨fmtDay (gridStart today + (k : Int)),
                      (lookupD (processEvents events).1
                          (fmtDay (gridStart today + (k : Int))) : Int), ""⟩
                ∧ fmtDay (gridStart today + (k : Int)) ≠ "")
          ∧ padCell.Date = "" ∧ padCell.Count = 0 := by
  have hsun : weekdayOf (gridStart today) = 0 := weekdayOf_sub_self (today - 364)
  have hb1 : gridStart today ≤ today - 364 := by
    unfold gridStart
    have := weekdayOf_nonneg (today - 364)
    omega
  have hb2 : today - 364 < gridStart today + 7 := by
    unfold gridStart
    have := weekdayOf_lt (today - 364)
    omega
  refine ⟨hsun, hb1, hb2, ?_, ?_⟩
  · intro w hw
    simp only [fetchGiteaContributions, buildWeeks] at hw
    exact buildDays_length7 (processEvents events).1 _ (gridStart today) [] []
      (by simp [hsun]) (by intro w' h; cases h) w hw
  · refine ⟨padLen (weekdayOf (gridStart today
        + ((today + 1 - gridStart today).toNat : Int))), ?_, ?_, ?_, rfl, rfl⟩
    · unfold padLen
      have := weekdayOf_lt (gridStart today + ((today + 1 - gridStart today).toNat : Int))
      have := weekdayOf_nonneg (gridStart today + ((today + 1 - gridStart today).toNat : Int))
      split <;> omega
    · simp only [fetchGiteaContributions, buildWeeks]
      rw [buildDays_join (processEvents events).1 _ _ [] [] (by simp [hsun])]
      simp [cellsFrom_eq_map]
    · intro k
      exact ⟨rfl, fmtDay_ne_empty _⟩

theorem monthLabels_aux (rest : Weeks) : ∀ (i : Nat) (labels : List MonthLabel),
    (List.enumFrom i rest).foldl
        (fun labels iw =>
          match weekMonthCandidate iw.2 with
          | none => labels
          | some lbl =>
            if (labels.getLast?).map MonthLabel.Label = some lbl then labels
            else labels ++ [⟨cellMargin + iw.1 * (cellSize + cellMargin), lbl⟩])
        labels
      = labels ++ monthLabelsSpec i ((labels.getLast?).map MonthLabel.Label) rest := by
  induction rest with
  | nil => intro i labels; simp [monthLabelsSpec]
  | cons w rest ih =>
    intro i labels
    rw [show List.enumFrom i (w :: rest) = (i, w) :: List.enumFrom (i + 1) rest from rfl]
    rw [List.foldl_cons]
    cases hc : weekMonthCandidate w with
    | none =>
      simp only [hc]
      rw [ih]
      simp [monthLabelsSpec, hc]
    | some lbl =>
      by_cases hlast : (labels.getLast?).map MonthLabel.Label = some lbl
      · simp only [hc, hlast, if_pos rfl]
        rw [ih]
        simp [monthLabelsSpec, hc, hlast]
      · simp only [hc, if_neg hlast]
        rw [ih]
        have hlast' : ((labels
              ++ [({ X := cellMargin + i * (cellSize + cellMargin),
                      Label := lbl } : MonthLabel)]).getLast?).map
                MonthLabel.Label = some lbl := by
          rw [List.getLast?_concat]
          rfl
        rw [hlast']
        simp [monthLabelsSpec, hc, hlast, List.append_assoc]

/-- C9: for every week grid, the heatmap's month labels are exactly those of
the spec's scan: left to right over the weeks, a label is emitted for week w
at x offset `cellMargin + w*(cellSize+cellMargin)` exactly when the week has
a first nonempty, parsable day with day-of-month 1, carrying that month's
three-letter abbreviation, unless it equals the most recently emitted
label. -/
theorem month_labels_spec_eq (weeks : Weeks) :
    monthLabels weeks = monthLabelsSpec 0 none weeks := by
  unfold monthLabels
  rw [show weeks.enum = List.enumFrom 0 weeks from rfl]
  rw [monthLabels_aux weeks 0 []]
  simp

end Contribmap
